import Mathlib

/-!
Verification of the data-acquisition layer of scripts/a_share_analyzer.py:
the CacheManager (memory TTL cache and persistent historical partitions),
the DataSourceManager failover loop, and the read-through orchestration
functions, as a shallow embedding in Lean.

Modelling conventions:
* dates are day numbers (Nat); the script normalizes every date to the
  string format %Y-%m-%d before comparing, and on normalized strings the
  lexicographic order used by the filters agrees with the chronological
  order, while the freshness check subtracts datetime values and takes
  exact whole days, so Nat day numbers with Int subtraction are faithful;
* a pandas DataFrame of historical bars is a List Row, one Row per line,
  with the non-date canonical columns collapsed into one opaque payload;
* timestamps from datetime.now().timestamp() are Int time values;
* pandas sort_values('日期') is modelled by insertion sort on the date;
  every partition the verified claims sort has pairwise distinct dates
  (except inside the C5 counterexample, which only compares lengths),
  and on such inputs every comparison sort returns the same list;
* file and network effects are made explicit: the partition file is an
  Option (List Row) threaded through the functions, a fetch is a
  pre-resolved Except value, and a persistence failure is a Bool flag.
-/

namespace AShareAnalyzer

instance {ε α : Type} [DecidableEq ε] [DecidableEq α] : DecidableEq (Except ε α) :=
  fun x y =>
    match x, y with
    | .ok a, .ok b =>
        if h : a = b then isTrue (by rw [h])
        else isFalse (by intro hc; cases hc; exact h rfl)
    | .error a, .error b =>
        if h : a = b then isTrue (by rw [h])
        else isFalse (by intro hc; cases hc; exact h rfl)
    | .ok _, .error _ => isFalse (by intro hc; cases hc)
    | .error _, .ok _ => isFalse (by intro hc; cases hc)

/-- One historical bar: the normalized trade date as a day number plus an
opaque payload standing for the remaining canonical columns
(open, high, low, close, volume, amount, change_percent, turnover). -/
structure Row where
  date : Nat
  val : Int
deriving DecidableEq, Repr

/-- Comparison used by sort_values('日期') on normalized date strings. -/
def dateLe (a b : Row) : Prop := a.date ≤ b.date

/-- Strict version of the date order, used to state sortedness with
pairwise distinct dates. -/
def dateLt (a b : Row) : Prop := a.date < b.date

instance : DecidableRel dateLe := fun a b => Nat.decLe a.date b.date

instance : DecidableRel dateLt := fun a b => Nat.decLt a.date b.date

instance : IsTotal Row dateLe := ⟨fun a b => Nat.le_total a.date b.date⟩

instance : IsTrans Row dateLe := ⟨fun _ _ _ h h2 => Nat.le_trans h h2⟩

instance : IsAntisymm Row dateLt :=
  ⟨fun _ _ h h2 => absurd (Nat.lt_trans h h2) (Nat.lt_irrefl _)⟩

/-- Embedding of combined.sort_values('日期') (ascending sort by date). -/
def sortByDate (l : List Row) : List Row := List.insertionSort dateLe l

/-- Embedding of combined.drop_duplicates(subset=['日期'], keep='last'):
a row survives exactly when no later row carries the same date. -/
def dropDupKeepLast : List Row → List Row
  | [] => []
  | r :: rs =>
      if rs.any (fun y => y.date == r.date) then dropDupKeepLast rs
      else r :: dropDupKeepLast rs

/-- Embedding of df['日期'].max() (0 on the empty frame, which the code
never consults because it returns earlier on an empty frame). -/
def maxDate (l : List Row) : Nat := l.foldl (fun m r => Nat.max m r.date) 0

/-- Range predicate of the date filter in CacheManager.get_historical_data. -/
def inRange (startD endD : Nat) (r : Row) : Bool :=
  decide (startD ≤ r.date) && decide (r.date ≤ endD)

/-- Value of CacheManager._default_ttl. -/
def defaultTtl : Int := 60

/-- Memory cache state: key to (data, stored_at timestamp), the dict
CacheManager._memory_cache with values of type V. -/
def MemCache (V : Type) := String → Option (V × Int)

/-- Effective TTL computed by the Python expression
ttl = ttl or self._default_ttl inside get_memory: None and the falsy
integer 0 both fall back to the default of 60. -/
def effectiveTtl : Option Int → Int
  | none => defaultTtl
  | some t => if t = 0 then defaultTtl else t

/-- Embedding of CacheManager.get_memory: returns the looked-up value and
the possibly-updated cache (the entry is deleted when it is found
expired on this check). now stands for datetime.now().timestamp(). -/
def getMemory {V : Type} (c : MemCache V) (key : String) (ttl : Option Int)
    (now : Int) : Option V × MemCache V :=
  match c key with
  | none => (none, c)
  | some (data, ts) =>
      if now - ts > effectiveTtl ttl then
        (none, fun k => if k = key then none else c k)
      else (some data, c)

/-- Embedding of CacheManager.set_memory. -/
def setMemory {V : Type} (c : MemCache V) (key : String) (data : V)
    (now : Int) : MemCache V :=
  fun k => if k = key then some (data, now) else c k

/-- Embedding of CacheManager.get_historical_data for one partition
(the file for the requested (data_type, symbol, period) triple):
none models both a missing file and every swallowed read error path. -/
def getHistoricalData (part : Option (List Row)) (startD endD : Nat) :
    Option (List Row) :=
  match part with
  | none => none
  | some df =>
      if df.isEmpty then none
      else
        let filtered := df.filter (inRange startD endD)
        if filtered.isEmpty then none
        else if (endD : Int) - (maxDate df : Int) > 2 then none
        else some filtered

/-- Embedding of CacheManager.save_historical_data on one partition.
writeErr true models any exception raised inside the try block (read of
the existing file or the parquet write); the except clause swallows it
and the file is left unchanged. -/
def saveHistoricalData (part : Option (List Row)) (df : List Row)
    (writeErr : Bool) : Option (List Row) :=
  if df.isEmpty then part
  else if writeErr then part
  else
    match part with
    | some existing => some (sortByDate (dropDupKeepLast (existing ++ df)))
    | none => some (sortByDate df)

/-- Health state of DataSourceManager: the failure_count dict, with the
dict's .get(source, 0) default built in. -/
structure SMState where
  failureCount : String → Nat

/-- Value of DataSourceManager.max_failures. -/
def maxFailures : Nat := 3

/-- Fresh DataSourceManager health state (empty failure_count dict). -/
def initialSM : SMState := ⟨fun _ => 0⟩

/-- Embedding of DataSourceManager._record_failure. -/
def recordFailure (st : SMState) (s : String) : SMState :=
  ⟨fun s2 => if s2 = s then st.failureCount s + 1 else st.failureCount s2⟩

/-- Embedding of DataSourceManager._record_success. -/
def recordSuccess (st : SMState) (s : String) : SMState :=
  ⟨fun s2 => if s2 = s then 0 else st.failureCount s2⟩

/-- Embedding of DataSourceManager._is_source_healthy. -/
def isSourceHealthy (st : SMState) (s : String) : Bool :=
  st.failureCount s < maxFailures

/-- Behaviour of one candidate's fetch function when invoked: it either
raises an exception (abstracted to a Nat error id), or returns None, or
returns a frame. -/
inductive FetchOutcome where
  | raises (e : Nat)
  | returns (df : Option (List Row))
deriving DecidableEq, Repr

/-- Embedding of the shared resolution loop of
DataSourceManager.get_realtime_quotes, get_stock_history and
get_index_history, which differ only in their candidate lists and in the
opaque fetch closures; candidates are (name, outcome of the fetch when
invoked). Returns the final health state, the list of sources actually
invoked (the rate-limited upstream calls, in order), and either the
first non-empty frame or the aggregate error embedding the last
remembered underlying error. On exhaustion failure_count.clear() runs
before the aggregate exception is raised. -/
def resolveSources (st : SMState) (lastError : Option Nat) :
    List (String × FetchOutcome) →
      SMState × List String × Except (Option Nat) (List Row)
  | [] => (initialSM, [], .error lastError)
  | (n, out) :: rest =>
      if isSourceHealthy st n then
        match out with
        | .raises e =>
            let r := resolveSources (recordFailure st n) (some e) rest
            (r.1, n :: r.2.1, r.2.2)
        | .returns none =>
            let r := resolveSources st lastError rest
            (r.1, n :: r.2.1, r.2.2)
        | .returns (some df) =>
            if df.isEmpty then
              let r := resolveSources st lastError rest
              (r.1, n :: r.2.1, r.2.2)
            else (recordSuccess st n, [n], .ok df)
      else resolveSources st lastError rest

/-- Shared miss path of get_stock_history_cached and
get_index_history_cached: fetch via the source manager (here a
pre-resolved Except value), persist non-empty results best-effort, and
hand the freshly fetched frame back together with the new partition. -/
def fetchAndStore {ε : Type} (part : Option (List Row))
    (fetch : Except ε (List Row)) (writeErr : Bool) :
    Except ε (List Row × Option (List Row)) :=
  match fetch with
  | .error err => .error err
  | .ok df =>
      .ok (df, if df.isEmpty then part else saveHistoricalData part df writeErr)

/-- Embedding of get_stock_history_cached (and, identically up to the
data_type tag and the candidate list hidden inside fetch, of
get_index_history_cached): returns the rows handed to the caller and
the partition after the call. -/
def getStockHistoryCached {ε : Type} (part : Option (List Row))
    (startD endD : Nat) (fetch : Except ε (List Row)) (writeErr : Bool) :
    Except ε (List Row × Option (List Row)) :=
  match getHistoricalData part startD endD with
  | some cached =>
      if 0 < cached.length then .ok (cached, part)
      else fetchAndStore part fetch writeErr
  | none => fetchAndStore part fetch writeErr

/-- Partition produced by a sequence of save_historical_data calls
starting from no file; each call carries its rows and its
persistence-failure flag. -/
def buildPartition (saves : List (List Row × Bool)) : Option (List Row) :=
  saves.foldl (fun p s => saveHistoricalData p s.1 s.2) none

/-- Embedding of the symbol guard of analyze_stock:
not (not symbol or not symbol.isdigit() or len(symbol) != 6). -/
def isValidStockSymbol (s : String) : Bool :=
  !s.isEmpty && s.toList.all Char.isDigit && s.length == 6

/-- Value of min_required in analyze_stock. -/
def minRequiredRows : Nat := 30

/-- Observable outcome of analyze_stock, with the out-of-scope indicator
and scoring block abstracted into the report constructor carrying the
frame it is computed from. -/
inductive AnalyzeOutcome where
  | invalidInput (symbol : String)
  | fetchFailed (e : Option Nat)
  | noData
  | insufficientData (n : Nat)
  | report (rows : List Row)
deriving DecidableEq, Repr

/-- Embedding of analyze_stock up to the indicator block: the symbol
guard, then the read-through fetch, then the emptiness and minimum-size
checks. startD and endD abstract the dates derived from the wall clock
and the clamped days argument. The final Bool records whether any cache
read, cache write or source call was reached. -/
def analyzeStock (symbol : String) (startD endD : Nat)
    (part : Option (List Row)) (fetch : Except (Option Nat) (List Row))
    (writeErr : Bool) : AnalyzeOutcome × Option (List Row) × Bool :=
  if isValidStockSymbol symbol then
    match getStockHistoryCached part startD endD fetch writeErr with
    | .error e => (.fetchFailed e, part, true)
    | .ok (df, part2) =>
        if df.isEmpty then (.noData, part2, true)
        else if df.length < minRequiredRows then
          (.insufficientData df.length, part2, true)
        else (.report df, part2, true)
  else (.invalidInput symbol, part, false)

/-! Helper lemmas about the resolution loop. -/

theorem resolveSources_nil (st : SMState) (le : Option Nat) :
    resolveSources st le [] = (initialSM, [], .error le) := rfl

theorem resolveSources_skip (st : SMState) (le : Option Nat) (n : String)
    (out : FetchOutcome) (rest : List (String × FetchOutcome))
    (h : isSourceHealthy st n = false) :
    resolveSources st le ((n, out) :: rest) = resolveSources st le rest := by
  simp [resolveSources, h]

theorem resolveSources_error_resets :
    ∀ (srcs : List (String × FetchOutcome)) (st : SMState) (le e : Option Nat),
      (resolveSources st le srcs).2.2 = .error e →
        ∀ s, (resolveSources st le srcs).1.failureCount s = 0
  | [], _, _, _, _, _ => rfl
  | (n, out) :: rest, st, le, e, h, s => by
      cases hh : isSourceHealthy st n with
      | false =>
          rw [resolveSources_skip st le n out rest hh] at h ⊢
          exact resolveSources_error_resets rest st le e h s
      | true =>
          cases out with
          | raises e2 =>
              simp only [resolveSources, hh, if_true] at h ⊢
              exact resolveSources_error_resets rest _ _ e h s
          | returns odf =>
              cases odf with
              | none =>
                  simp only [resolveSources, hh, if_true] at h ⊢
                  exact resolveSources_error_resets rest _ _ e h s
              | some df =>
                  cases df with
                  | nil =>
                      simp only [resolveSources, hh, if_true, List.isEmpty_nil,
                        if_true] at h ⊢
                      exact resolveSources_error_resets rest _ _ e h s
                  | cons r rs =>
                      simp only [resolveSources, hh, if_true, List.isEmpty_cons,
                        Bool.false_eq_true, if_false] at h
                      exact Except.noConfusion h

/-! Claim theorems. -/

/-- C3. For every stored partition and load request, a requested end-date
more than 2 calendar days past the partition's latest stored date makes
get_historical_data return none (a miss) even if the rows cover the
range; with a gap of at most 2 days and a non-empty date-filtered
result, the filtered rows are returned. -/
theorem freshness_gate (df : List Row) (startD endD : Nat) :
    ((endD : Int) - (maxDate df : Int) > 2 →
      getHistoricalData (some df) startD endD = none)
    ∧ ((endD : Int) - (maxDate df : Int) ≤ 2 →
        df.filter (inRange startD endD) ≠ [] →
        getHistoricalData (some df) startD endD
          = some (df.filter (inRange startD endD))) := by
  constructor
  · intro hgt
    simp only [getHistoricalData]
    split_ifs with h1 h2 <;> rfl
  · intro hle hne
    have hdf : ¬ df.isEmpty = true := by
      simp only [List.isEmpty_eq_true]
      intro h0
      exact hne (by simp [h0])
    have hf : ¬ (df.filter (inRange startD endD)).isEmpty = true := by
      simp only [List.isEmpty_eq_true]
      exact hne
    simp [getHistoricalData, hdf, hf, not_lt.mpr hle]

/-- Witness for freshness_gate: a partition ending at day 10 misses a
request ending at day 13 and answers one ending at day 12. -/
theorem freshness_gate_check :
    ((13 : Int) - (maxDate [Row.mk 9 0, Row.mk 10 0] : Int) > 2
      ∧ getHistoricalData (some [Row.mk 9 0, Row.mk 10 0]) 9 13 = none)
    ∧ ((12 : Int) - (maxDate [Row.mk 9 0, Row.mk 10 0] : Int) ≤ 2
      ∧ getHistoricalData (some [Row.mk 9 0, Row.mk 10 0]) 9 12
          = some [Row.mk 9 0, Row.mk 10 0]) := by
  refine ⟨⟨by decide, ?_⟩, ⟨by decide, ?_⟩⟩
  · exact (freshness_gate [Row.mk 9 0, Row.mk 10 0] 9 13).1 (by decide)
  · have h := (freshness_gate [Row.mk 9 0, Row.mk 10 0] 9 12).2 (by decide) (by decide)
    rw [h]
    decide

/-- C4. A value set in the memory cache at time tSet is returned
unchanged by get_memory at time tGet whenever tGet - tSet is at most the
(positive) ttl, is treated as absent with the entry deleted when
tGet - tSet exceeds the ttl, and a key never set reads as absent. -/
theorem memory_ttl_correct {V : Type} (c : MemCache V) (key : String) (v : V)
    (tSet tGet ttl : Int) (hpos : 0 < ttl) :
    (tGet - tSet ≤ ttl →
      getMemory (setMemory c key v tSet) key (some ttl) tGet
        = (some v, setMemory c key v tSet))
    ∧ (tGet - tSet > ttl →
        (getMemory (setMemory c key v tSet) key (some ttl) tGet).1 = none
        ∧ (getMemory (setMemory c key v tSet) key (some ttl) tGet).2 key = none)
    ∧ (∀ c2 : MemCache V, c2 key = none →
        (getMemory c2 key (some ttl) tGet).1 = none) := by
  have heff : effectiveTtl (some ttl) = ttl := by
    simp [effectiveTtl, Int.ne_of_gt hpos]
  have hkey : setMemory c key v tSet key = some (v, tSet) := by
    simp [setMemory]
  refine ⟨?_, ?_, ?_⟩
  · intro hfresh
    simp only [getMemory, hkey, heff]
    rw [if_neg (by omega)]
  · intro hstale
    simp only [getMemory, hkey, heff]
    rw [if_pos (by omega)]
    exact ⟨rfl, by simp⟩
  · intro c2 hc2
    simp [getMemory, hc2]

/-- Witness for memory_ttl_correct at ttl 5: a read 3 ticks after the
set returns the value, a read 7 ticks after reads absent. -/
theorem memory_ttl_correct_check :
    (0 : Int) < 5
    ∧ (getMemory (setMemory (fun _ => (none : Option (Nat × Int))) "k" 42 0)
        "k" (some 5) 3).1 = some 42
    ∧ (getMemory (setMemory (fun _ => (none : Option (Nat × Int))) "k" 42 0)
        "k" (some 5) 7).1 = none := by
  refine ⟨by decide, ?_, ?_⟩
  · have h := (memory_ttl_correct (fun _ => none) "k" 42 0 3 5 (by decide)).1
      (by decide)
    rw [h]
  · exact ((memory_ttl_correct (fun _ => none) "k" 42 0 7 5 (by decide)).2.1
      (by decide)).1

/-- C10. A ttl argument of 0 (Python falsy) or None falls back to the
default TTL of 60 inside get_memory, so an entry younger than 60 time
units is still returned rather than treated as immediately expired. -/
theorem falsy_ttl_default {V : Type} (c : MemCache V) (key : String) (v : V)
    (ts now : Int) (hk : c key = some (v, ts)) (hy : now - ts < 60) :
    (getMemory c key (some 0) now).1 = some v
    ∧ (getMemory c key none now).1 = some v
    ∧ effectiveTtl (some 0) = defaultTtl
    ∧ effectiveTtl none = defaultTtl := by
  have h0 : effectiveTtl (some 0) = (60 : Int) := by simp [effectiveTtl, defaultTtl]
  have hn : effectiveTtl none = (60 : Int) := by simp [effectiveTtl, defaultTtl]
  refine ⟨?_, ?_, by simp [effectiveTtl], rfl⟩
  · simp only [getMemory, hk, h0]
    rw [if_neg (by omega)]
  · simp only [getMemory, hk, hn]
    rw [if_neg (by omega)]

/-- Witness for falsy_ttl_default: an entry set at time 0 and read at
time 30 with ttl 0 (and with ttl omitted) still yields its value. -/
theorem falsy_ttl_default_check :
    ((fun k => if k = "q" then some ((7 : Nat), (0 : Int)) else none) "q"
        = some (7, 0))
    ∧ (30 : Int) - 0 < 60
    ∧ (getMemory (fun k => if k = "q" then some ((7 : Nat), (0 : Int)) else none)
        "q" (some 0) 30).1 = some 7
    ∧ (getMemory (fun k => if k = "q" then some ((7 : Nat), (0 : Int)) else none)
        "q" none 30).1 = some 7 := by
  have h := falsy_ttl_default
    (fun k => if k = "q" then some ((7 : Nat), (0 : Int)) else none) "q" 7 0 30
    (by decide) (by decide)
  exact ⟨by decide, by decide, h.1, h.2.1⟩

/-! Helper lemmas about sorting by date and keep-last deduplication. -/

/-- Pairwise distinctness of the dates of a frame, the uniqueness half
of the partition invariant. -/
def datesNodup (l : List Row) : Prop := (l.map Row.date).Nodup

instance (l : List Row) : Decidable (datesNodup l) :=
  List.nodupDecidable (l.map Row.date)

theorem sortByDate_perm (l : List Row) : List.Perm (sortByDate l) l :=
  List.perm_insertionSort dateLe l

theorem sortByDate_sorted (l : List Row) : List.Sorted dateLe (sortByDate l) :=
  List.sorted_insertionSort dateLe l

theorem datesNodup_perm {l1 l2 : List Row} (p : List.Perm l1 l2) (h : datesNodup l1) :
    datesNodup l2 :=
  (p.map Row.date).nodup h

theorem eq_of_date_eq {l : List Row} (h : datesNodup l) {a b : Row}
    (ha : a ∈ l) (hb : b ∈ l) (hd : a.date = b.date) : a = b :=
  List.inj_on_of_nodup_map h ha hb hd

theorem sorted_lt_of_le_nodup {l : List Row} (hs : List.Sorted dateLe l)
    (hn : datesNodup l) : List.Sorted dateLt l := by
  have hne : l.Pairwise (fun a b : Row => a.date ≠ b.date) :=
    List.pairwise_map.mp hn
  exact (List.Pairwise.and hs hne).imp
    (fun h => Nat.lt_of_le_of_ne h.1 h.2)

theorem datesNodup_of_sorted_lt {l : List Row} (h : List.Sorted dateLt l) :
    datesNodup l :=
  List.pairwise_map.mpr (h.imp (fun hab => Nat.ne_of_lt hab))

theorem nodup_of_datesNodup {l : List Row} (h : datesNodup l) : l.Nodup :=
  List.Nodup.of_map Row.date h

theorem dropDupKeepLast_nil : dropDupKeepLast [] = [] := rfl

theorem dropDupKeepLast_cons (x : Row) (xs : List Row) :
    dropDupKeepLast (x :: xs)
      = if xs.any (fun y => y.date == x.date) then dropDupKeepLast xs
        else x :: dropDupKeepLast xs := rfl

theorem dropDupKeepLast_cons_of_forall_ne (x : Row) (xs : List Row)
    (h : ∀ y ∈ xs, y.date ≠ x.date) :
    dropDupKeepLast (x :: xs) = x :: dropDupKeepLast xs := by
  rw [dropDupKeepLast_cons, if_neg]
  intro hc
  obtain ⟨y, hy, hyd⟩ := List.any_eq_true.mp hc
  exact h y hy (by simpa using hyd)

theorem dropDupKeepLast_cons_of_dup (x : Row) (xs : List Row) {y : Row}
    (hy : y ∈ xs) (hyd : y.date = x.date) :
    dropDupKeepLast (x :: xs) = dropDupKeepLast xs := by
  rw [dropDupKeepLast_cons,
    if_pos (List.any_eq_true.mpr ⟨y, hy, by simpa using hyd⟩)]

theorem dropDupKeepLast_subset {l : List Row} : ∀ {r : Row},
    r ∈ dropDupKeepLast l → r ∈ l := by
  induction l with
  | nil => intro r h; exact absurd h (List.not_mem_nil r)
  | cons x xs ih =>
      intro r h
      rw [dropDupKeepLast_cons] at h
      by_cases hx : xs.any (fun y => y.date == x.date) = true
      · rw [if_pos hx] at h
        exact List.mem_cons_of_mem x (ih h)
      · rw [if_neg hx] at h
        rcases List.mem_cons.mp h with h1 | h1
        · exact h1 ▸ List.mem_cons_self x xs
        · exact List.mem_cons_of_mem x (ih h1)

theorem datesNodup_dropDupKeepLast (l : List Row) :
    datesNodup (dropDupKeepLast l) := by
  induction l with
  | nil => exact List.nodup_nil
  | cons x xs ih =>
      rw [dropDupKeepLast_cons]
      by_cases hx : xs.any (fun y => y.date == x.date) = true
      · rw [if_pos hx]; exact ih
      · rw [if_neg hx]
        simp only [datesNodup, List.map_cons, List.nodup_cons]
        refine ⟨?_, ih⟩
        intro hmem
        obtain ⟨y, hy, hyd⟩ := List.mem_map.mp hmem
        exact hx (List.any_eq_true.mpr
          ⟨y, dropDupKeepLast_subset hy, by simpa using hyd⟩)

theorem mem_dropDupKeepLast_of_unique {l : List Row} : ∀ {r : Row},
    r ∈ l → (∀ y ∈ l, y.date = r.date → y = r) → r ∈ dropDupKeepLast l := by
  induction l with
  | nil => intro r h _; exact absurd h (List.not_mem_nil r)
  | cons x xs ih =>
      intro r hr hu
      rw [dropDupKeepLast_cons]
      by_cases hx : xs.any (fun y => y.date == x.date) = true
      · rw [if_pos hx]
        rcases List.mem_cons.mp hr with rfl | h1
        · obtain ⟨y, hy, hyd⟩ := List.any_eq_true.mp hx
          have hye : y = r :=
            hu y (List.mem_cons_of_mem _ hy) (by simpa using hyd)
          exact ih (hye ▸ hy)
            (fun z hz hzd => hu z (List.mem_cons_of_mem _ hz) hzd)
        · exact ih h1 (fun z hz hzd => hu z (List.mem_cons_of_mem _ hz) hzd)
      · rw [if_neg hx]
        rcases List.mem_cons.mp hr with rfl | h1
        · exact List.mem_cons_self r _
        · exact List.mem_cons_of_mem x
            (ih h1 (fun z hz hzd => hu z (List.mem_cons_of_mem _ hz) hzd))

theorem mem_dropDupKeepLast_append_right {l2 : List Row} {r : Row}
    (hr : r ∈ l2) (hu : ∀ y ∈ l2, y.date = r.date → y = r) :
    ∀ l1 : List Row, r ∈ dropDupKeepLast (l1 ++ l2) := by
  intro l1
  induction l1 with
  | nil => simpa using mem_dropDupKeepLast_of_unique hr hu
  | cons x xs ih =>
      rw [List.cons_append, dropDupKeepLast_cons]
      by_cases hx : (xs ++ l2).any (fun y => y.date == x.date) = true
      · rw [if_pos hx]; exact ih
      · rw [if_neg hx]; exact List.mem_cons_of_mem x ih

theorem sort_dedup_append_eq {A df : List Row} (hA : List.Sorted dateLt A)
    (hdf : datesNodup df) (hsub : ∀ r ∈ df, r ∈ A) :
    sortByDate (dropDupKeepLast (A ++ df)) = A := by
  have hAnd : datesNodup A := datesNodup_of_sorted_lt hA
  have hmem : ∀ r : Row, r ∈ dropDupKeepLast (A ++ df) ↔ r ∈ A := by
    intro r
    constructor
    · intro h
      rcases List.mem_append.mp (dropDupKeepLast_subset h) with h1 | h1
      · exact h1
      · exact hsub r h1
    · intro h
      by_cases hd : ∃ y ∈ df, y.date = r.date
      · obtain ⟨y, hy, hyd⟩ := hd
        have hyr : y = r := eq_of_date_eq hAnd (hsub y hy) h hyd
        subst hyr
        exact mem_dropDupKeepLast_append_right hy
          (fun z hz hzd => eq_of_date_eq hdf hz hy hzd) A
      · push_neg at hd
        refine mem_dropDupKeepLast_of_unique (List.mem_append.mpr (Or.inl h)) ?_
        intro z hz hzd
        rcases List.mem_append.mp hz with h1 | h1
        · exact eq_of_date_eq hAnd h1 h hzd
        · exact absurd hzd (hd z h1)
  have hperm : List.Perm (dropDupKeepLast (A ++ df)) A :=
    (List.perm_ext_iff_of_nodup
      (nodup_of_datesNodup (datesNodup_dropDupKeepLast _))
      (nodup_of_datesNodup hAnd)).mpr hmem
  have hs2 : List.Sorted dateLt (sortByDate (dropDupKeepLast (A ++ df))) :=
    sorted_lt_of_le_nodup (sortByDate_sorted _)
      (datesNodup_perm (sortByDate_perm _).symm (datesNodup_dropDupKeepLast _))
  exact List.eq_of_perm_of_sorted ((sortByDate_perm _).trans hperm) hs2 hA

/-! Helper lemmas about the partition invariant maintained by saves. -/

/-- Partition invariant: if the file exists, its rows are strictly
sorted ascending by date (hence dates are pairwise distinct). -/
def PartOk (p : Option (List Row)) : Prop :=
  ∀ l, p = some l → List.Sorted dateLt l

theorem saveHistoricalData_empty (p : Option (List Row)) (w : Bool) :
    saveHistoricalData p [] w = p := by
  simp [saveHistoricalData]

theorem saveHistoricalData_writeErr (p : Option (List Row)) (df : List Row) :
    saveHistoricalData p df true = p := by
  simp [saveHistoricalData]

theorem saveHistoricalData_fresh (df : List Row) (he : df.isEmpty = false) :
    saveHistoricalData none df false = some (sortByDate df) := by
  simp [saveHistoricalData, he]

theorem saveHistoricalData_merge (ex df : List Row) (he : df.isEmpty = false) :
    saveHistoricalData (some ex) df false
      = some (sortByDate (dropDupKeepLast (ex ++ df))) := by
  simp [saveHistoricalData, he]

theorem partOk_save (p : Option (List Row)) (df : List Row) (werr : Bool)
    (hp : PartOk p) (hdf : datesNodup df) :
    PartOk (saveHistoricalData p df werr) := by
  intro l hl
  cases hdfE : df.isEmpty with
  | true =>
      rw [List.isEmpty_iff] at hdfE
      subst hdfE
      rw [saveHistoricalData_empty] at hl
      exact hp l hl
  | false =>
      cases werr with
      | true =>
          rw [saveHistoricalData_writeErr] at hl
          exact hp l hl
      | false =>
          cases p with
          | none =>
              rw [saveHistoricalData_fresh df hdfE] at hl
              cases hl
              exact sorted_lt_of_le_nodup (sortByDate_sorted df)
                (datesNodup_perm (sortByDate_perm df).symm hdf)
          | some ex =>
              rw [saveHistoricalData_merge ex df hdfE] at hl
              cases hl
              exact sorted_lt_of_le_nodup (sortByDate_sorted _)
                (datesNodup_perm (sortByDate_perm _).symm
                  (datesNodup_dropDupKeepLast _))

theorem partOk_foldl :
    ∀ (saves : List (List Row × Bool)) (p : Option (List Row)),
      PartOk p → (∀ s ∈ saves, datesNodup s.1) →
      PartOk (saves.foldl (fun q s => saveHistoricalData q s.1 s.2) p)
  | [], _, hp, _ => hp
  | s :: rest, p, hp, hs => by
      simp only [List.foldl_cons]
      exact partOk_foldl rest _
        (partOk_save _ _ _ hp (hs s (List.mem_cons_self _ _)))
        (fun z hz => hs z (List.mem_cons_of_mem _ hz))

theorem partOk_buildPartition (saves : List (List Row × Bool))
    (hs : ∀ s ∈ saves, datesNodup s.1) : PartOk (buildPartition saves) :=
  partOk_foldl saves none (fun _ hl => Option.noConfusion hl) hs

theorem getHistoricalData_sorted {p : Option (List Row)} {s e : Nat}
    {rows : List Row} (hp : PartOk p)
    (h : getHistoricalData p s e = some rows) : List.Sorted dateLt rows := by
  cases p with
  | none => exact Option.noConfusion h
  | some df =>
      simp only [getHistoricalData] at h
      by_cases h1 : df.isEmpty = true
      · rw [if_pos h1] at h
        exact Option.noConfusion h
      · rw [if_neg h1] at h
        by_cases h2 : (df.filter (inRange s e)).isEmpty = true
        · rw [if_pos h2] at h
          exact Option.noConfusion h
        · rw [if_neg h2] at h
          by_cases h3 : (e : Int) - (maxDate df : Int) > 2
          · rw [if_pos h3] at h
            exact Option.noConfusion h
          · rw [if_neg h3] at h
            cases h
            exact List.Pairwise.filter _ (hp df rfl)

theorem fetchAndStore_rows {ε : Type} {p part2 : Option (List Row)}
    {fetch : Except ε (List Row)} {werr : Bool} {rows : List Row}
    (h : fetchAndStore p fetch werr = .ok (rows, part2)) :
    fetch = .ok rows := by
  cases fetch with
  | error e => exact Except.noConfusion h
  | ok df =>
      simp only [fetchAndStore, Except.ok.injEq, Prod.mk.injEq] at h
      rw [h.1]

theorem getStockHistoryCached_hit {ε : Type} (part : Option (List Row))
    (s e : Nat) (fetch : Except ε (List Row)) (w : Bool) (cached : List Row)
    (hload : getHistoricalData part s e = some cached)
    (hlen : 0 < cached.length) :
    getStockHistoryCached part s e fetch w = .ok (cached, part) := by
  unfold getStockHistoryCached
  rw [hload]
  simp [hlen]

theorem getStockHistoryCached_hit_empty {ε : Type} (part : Option (List Row))
    (s e : Nat) (fetch : Except ε (List Row)) (w : Bool) (cached : List Row)
    (hload : getHistoricalData part s e = some cached)
    (hlen : ¬ 0 < cached.length) :
    getStockHistoryCached part s e fetch w = fetchAndStore part fetch w := by
  unfold getStockHistoryCached
  rw [hload]
  simp [hlen]

theorem getStockHistoryCached_miss {ε : Type} (part : Option (List Row))
    (s e : Nat) (fetch : Except ε (List Row)) (w : Bool)
    (hload : getHistoricalData part s e = none) :
    getStockHistoryCached part s e fetch w = fetchAndStore part fetch w := by
  unfold getStockHistoryCached
  rw [hload]

/-- C1. Merging a partition holding rows at ascending dates d1 < d2 < d3
with a newly fetched frame holding a row at d3 (an update of the stored
one) and a row at d4 > d3 yields exactly the rows at d1, d2, d3, d4
sorted ascending, with the newly supplied d3 row replacing the stored
one (dedupe by date, keep-last on conflict). -/
theorem merge_by_date_correct (x1 x2 x3 y3 y4 : Row)
    (h12 : x1.date < x2.date) (h23 : x2.date < x3.date)
    (h33 : y3.date = x3.date) (h34 : x3.date < y4.date) :
    saveHistoricalData (some [x1, x2, x3]) [y3, y4] false
      = some [x1, x2, y3, y4] := by
  have hsave : saveHistoricalData (some [x1, x2, x3]) [y3, y4] false
      = some (sortByDate (dropDupKeepLast [x1, x2, x3, y3, y4])) := rfl
  have m1 : ∀ y ∈ [x2, x3, y3, y4], y.date ≠ x1.date := by
    intro y hy
    simp only [List.mem_cons, List.not_mem_nil, or_false] at hy
    rcases hy with rfl | rfl | rfl | rfl <;> omega
  have m2 : ∀ y ∈ [x3, y3, y4], y.date ≠ x2.date := by
    intro y hy
    simp only [List.mem_cons, List.not_mem_nil, or_false] at hy
    rcases hy with rfl | rfl | rfl <;> omega
  have m4 : ∀ y ∈ [y4], y.date ≠ y3.date := by
    intro y hy
    simp only [List.mem_cons, List.not_mem_nil, or_false] at hy
    subst hy
    omega
  have m5 : ∀ y ∈ ([] : List Row), y.date ≠ y4.date := by
    intro y hy
    exact absurd hy (List.not_mem_nil y)
  have hd : dropDupKeepLast [x1, x2, x3, y3, y4] = [x1, x2, y3, y4] := by
    rw [dropDupKeepLast_cons_of_forall_ne x1 _ m1,
      dropDupKeepLast_cons_of_forall_ne x2 _ m2,
      dropDupKeepLast_cons_of_dup x3 _ (List.mem_cons_self y3 [y4]) h33,
      dropDupKeepLast_cons_of_forall_ne y3 _ m4,
      dropDupKeepLast_cons_of_forall_ne y4 _ m5]
    rfl
  have s1 : ∀ b ∈ [x2, y3, y4], dateLe x1 b := by
    intro b hb
    simp only [List.mem_cons, List.not_mem_nil, or_false] at hb
    unfold dateLe
    rcases hb with rfl | rfl | rfl <;> omega
  have s2 : ∀ b ∈ [y3, y4], dateLe x2 b := by
    intro b hb
    simp only [List.mem_cons, List.not_mem_nil, or_false] at hb
    unfold dateLe
    rcases hb with rfl | rfl <;> omega
  have s3 : ∀ b ∈ [y4], dateLe y3 b := by
    intro b hb
    simp only [List.mem_cons, List.not_mem_nil, or_false] at hb
    unfold dateLe
    subst hb
    omega
  have s4 : ∀ b ∈ ([] : List Row), dateLe y4 b := by
    intro b hb
    exact absurd hb (List.not_mem_nil b)
  have hsorted : List.Sorted dateLe [x1, x2, y3, y4] :=
    List.Pairwise.cons s1 (List.Pairwise.cons s2
      (List.Pairwise.cons s3 (List.Pairwise.cons s4 List.Pairwise.nil)))
  rw [hsave, hd,
    show sortByDate [x1, x2, y3, y4] = [x1, x2, y3, y4] from
      List.Sorted.insertionSort_eq hsorted]

/-- Witness for merge_by_date_correct at dates 1 < 2 < 3 < 4 with the
updated day-3 row carrying payload 99. -/
theorem merge_by_date_correct_check :
    (Row.mk 1 0).date < (Row.mk 2 0).date
    ∧ (Row.mk 2 0).date < (Row.mk 3 0).date
    ∧ (Row.mk 3 99).date = (Row.mk 3 0).date
    ∧ (Row.mk 3 0).date < (Row.mk 4 0).date
    ∧ saveHistoricalData (some [Row.mk 1 0, Row.mk 2 0, Row.mk 3 0])
        [Row.mk 3 99, Row.mk 4 0] false
        = some [Row.mk 1 0, Row.mk 2 0, Row.mk 3 99, Row.mk 4 0] :=
  ⟨by decide, by decide, rfl, by decide,
    merge_by_date_correct (Row.mk 1 0) (Row.mk 2 0) (Row.mk 3 0)
      (Row.mk 3 99) (Row.mk 4 0) (by decide) (by decide) rfl (by decide)⟩

/-- C5 counterexample. For a fetched frame holding two rows with the same
date, saving it once into an empty store keeps both rows (the
first-write branch sorts but does not deduplicate), while saving it a
second time merges and deduplicates down to one row: the partitions
differ, already in length, which makes the disagreement independent of
the order the pandas sort leaves equal dates in. -/
theorem save_idempotent_cex :
    Option.map List.length
        (saveHistoricalData
          (saveHistoricalData none [Row.mk 0 1, Row.mk 0 2] false)
          [Row.mk 0 1, Row.mk 0 2] false) = some 1
    ∧ Option.map List.length
        (saveHistoricalData none [Row.mk 0 1, Row.mk 0 2] false) = some 2
    ∧ saveHistoricalData
        (saveHistoricalData none [Row.mk 0 1, Row.mk 0 2] false)
        [Row.mk 0 1, Row.mk 0 2] false
      ≠ saveHistoricalData none [Row.mk 0 1, Row.mk 0 2] false :=
  ⟨by decide, by decide, by decide⟩

/-- C5 (amended). For every frame whose dates are pairwise distinct (as
every really fetched range is), saving it twice yields a partition
identical to the one obtained by saving it once, from any starting
partition and for either persistence outcome. -/
theorem save_idempotent_nodup (part : Option (List Row)) (df : List Row)
    (werr : Bool) (hdf : datesNodup df) :
    saveHistoricalData (saveHistoricalData part df werr) df werr
      = saveHistoricalData part df werr := by
  cases hdfE : df.isEmpty with
  | true =>
      rw [List.isEmpty_iff] at hdfE
      subst hdfE
      rw [saveHistoricalData_empty, saveHistoricalData_empty]
  | false =>
      cases werr with
      | true => rw [saveHistoricalData_writeErr, saveHistoricalData_writeErr]
      | false =>
          cases part with
          | none =>
              rw [saveHistoricalData_fresh df hdfE,
                saveHistoricalData_merge _ df hdfE,
                sort_dedup_append_eq
                  (sorted_lt_of_le_nodup (sortByDate_sorted df)
                    (datesNodup_perm (sortByDate_perm df).symm hdf))
                  hdf
                  (fun r hr => ((sortByDate_perm df).mem_iff).mpr hr)]
          | some ex =>
              have hsub : ∀ r ∈ df,
                  r ∈ sortByDate (dropDupKeepLast (ex ++ df)) := by
                intro r hr
                exact ((sortByDate_perm _).mem_iff).mpr
                  (mem_dropDupKeepLast_append_right hr
                    (fun z hz hzd => eq_of_date_eq hdf hz hr hzd) ex)
              rw [saveHistoricalData_merge ex df hdfE,
                saveHistoricalData_merge _ df hdfE,
                sort_dedup_append_eq
                  (sorted_lt_of_le_nodup (sortByDate_sorted _)
                    (datesNodup_perm (sortByDate_perm _).symm
                      (datesNodup_dropDupKeepLast _)))
                  hdf hsub]

/-- Witness for save_idempotent_nodup on a two-row frame with distinct
dates saved twice into an empty store. -/
theorem save_idempotent_nodup_check :
    datesNodup [Row.mk 1 0, Row.mk 2 0]
    ∧ saveHistoricalData
        (saveHistoricalData none [Row.mk 1 0, Row.mk 2 0] false)
        [Row.mk 1 0, Row.mk 2 0] false
      = saveHistoricalData none [Row.mk 1 0, Row.mk 2 0] false :=
  ⟨by decide,
    save_idempotent_nodup none [Row.mk 1 0, Row.mk 2 0] false (by decide)⟩

/-- C7 counterexample. On a cache miss the read-through layer hands the
freshly fetched frame to the caller verbatim, so a source returning a
frame with a duplicated date (necessarily not strictly sorted) reaches
the caller unsorted and with duplicate dates. -/
theorem returned_rows_sorted_cex :
    (getStockHistoryCached none 0 5
        (Except.ok [Row.mk 1 0, Row.mk 1 1] : Except (Option Nat) (List Row))
        false).map Prod.fst
      = Except.ok [Row.mk 1 0, Row.mk 1 1]
    ∧ ¬ List.Sorted dateLt [Row.mk 1 0, Row.mk 1 1]
    ∧ ¬ datesNodup [Row.mk 1 0, Row.mk 1 1] := by
  refine ⟨rfl, ?_, by decide⟩
  intro hs
  rcases List.pairwise_cons.mp hs with ⟨hall, _⟩
  exact absurd (hall (Row.mk 1 1) (List.mem_singleton_self _))
    (by intro hlt; exact Nat.lt_irrefl 1 hlt)

/-- C7 (amended). For a store built by any sequence of saves of frames
with pairwise distinct dates, and a fetch whose frame is strictly
sorted ascending by date, every successful call of the read-through
history fetch returns rows strictly sorted ascending by date (hence
with no duplicate dates), however many overlapping ranges were merged
into the store before. -/
theorem returned_rows_sorted (saves : List (List Row × Bool))
    (hs : ∀ s ∈ saves, datesNodup s.1) (startD endD : Nat)
    (fetch : Except (Option Nat) (List Row))
    (hf : ∀ df, fetch = .ok df → List.Sorted dateLt df) (werr : Bool)
    (rows : List Row) (part2 : Option (List Row))
    (h : getStockHistoryCached (buildPartition saves) startD endD fetch werr
      = .ok (rows, part2)) :
    List.Sorted dateLt rows := by
  have hp : PartOk (buildPartition saves) := partOk_buildPartition saves hs
  cases hload : getHistoricalData (buildPartition saves) startD endD with
  | some cached =>
      by_cases hlen : 0 < cached.length
      · rw [getStockHistoryCached_hit (buildPartition saves) startD endD
          fetch werr cached hload hlen] at h
        simp only [Except.ok.injEq, Prod.mk.injEq] at h
        exact h.1 ▸ getHistoricalData_sorted hp hload
      · rw [getStockHistoryCached_hit_empty (buildPartition saves) startD endD
          fetch werr cached hload hlen] at h
        exact hf rows (fetchAndStore_rows h)
  | none =>
      rw [getStockHistoryCached_miss (buildPartition saves) startD endD
        fetch werr hload] at h
      exact hf rows (fetchAndStore_rows h)

/-- Witness for returned_rows_sorted: a one-save store answers a covered
fresh request with its strictly sorted single row. -/
theorem returned_rows_sorted_check :
    (∀ s ∈ [([Row.mk 1 5], false)], datesNodup s.1)
    ∧ getStockHistoryCached (buildPartition [([Row.mk 1 5], false)]) 0 3
        (Except.error none : Except (Option Nat) (List Row)) false
        = .ok ([Row.mk 1 5], some [Row.mk 1 5])
    ∧ List.Sorted dateLt [Row.mk 1 5] := by
  refine ⟨by decide, by decide, ?_⟩
  exact returned_rows_sorted [([Row.mk 1 5], false)] (by decide) 0 3
    (Except.error none) (fun df hdf => Except.noConfusion hdf) false
    [Row.mk 1 5] (some [Row.mk 1 5]) (by decide)

/-- C2 counterexample. With candidate em returning an empty frame
without raising and candidate tx then succeeding, the attempt succeeds
with tx's frame, yet em's failure count is not incremented: it stays at
its old value 0 instead of old value + 1 as the claim requires. -/
theorem empty_result_no_count_cex :
    (resolveSources initialSM none
        [("em", .returns (some [])),
          ("tx", .returns (some [Row.mk 0 0]))]).2.2 = .ok [Row.mk 0 0]
    ∧ ¬ (resolveSources initialSM none
        [("em", .returns (some [])),
          ("tx", .returns (some [Row.mk 0 0]))]).1.failureCount "em"
        = initialSM.failureCount "em" + 1 := by
  exact ⟨by decide, by decide⟩

/-- C2 (amended). During resolution a healthy candidate whose fetch
returns an empty or null frame is passed over with its failure count
unchanged — the final health state and the outcome are those of
resolving the remaining candidates alone — while only a raised
exception increments the candidate's failure count (by one) before
resolution continues with the error remembered. -/
theorem empty_result_skipped_without_count (st : SMState) (le : Option Nat)
    (n : String) (e : Nat) (rest : List (String × FetchOutcome))
    (h : isSourceHealthy st n = true) :
    ((resolveSources st le ((n, .returns (some [])) :: rest)).1
        = (resolveSources st le rest).1)
    ∧ ((resolveSources st le ((n, .returns (some [])) :: rest)).2.2
        = (resolveSources st le rest).2.2)
    ∧ ((resolveSources st le ((n, .returns none) :: rest)).1
        = (resolveSources st le rest).1)
    ∧ ((resolveSources st le ((n, .raises e) :: rest)).1
        = (resolveSources (recordFailure st n) (some e) rest).1)
    ∧ (recordFailure st n).failureCount n = st.failureCount n + 1 := by
  refine ⟨?_, ?_, ?_, ?_, ?_⟩ <;> simp [resolveSources, h, recordFailure]

/-- Witness for empty_result_skipped_without_count on a fresh manager
and source em. -/
theorem empty_result_skipped_without_count_check :
    isSourceHealthy initialSM "em" = true
    ∧ (recordFailure initialSM "em").failureCount "em"
        = initialSM.failureCount "em" + 1 :=
  ⟨by decide,
    (empty_result_skipped_without_count initialSM none "em" 5 []
      (by decide)).2.2.2.2⟩

/-- C6. A source whose failure count has reached max_failures (3) is
skipped without its fetch being invoked: resolution of the list with it
in front equals resolution of the remaining candidates, invocation
trace included. Exhausting the candidates clears every failure counter
and fails with the aggregate error embedding the last remembered
underlying error, so after any fully failed resolution every source is
healthy again for the next attempt. -/
theorem health_skip_and_reset (st : SMState) (le : Option Nat) (n : String)
    (out : FetchOutcome) (rest : List (String × FetchOutcome))
    (h : maxFailures ≤ st.failureCount n) :
    (resolveSources st le ((n, out) :: rest) = resolveSources st le rest)
    ∧ (∀ (st0 : SMState) (le0 : Option Nat),
        resolveSources st0 le0 [] = (initialSM, [], .error le0))
    ∧ (∀ (srcs : List (String × FetchOutcome)) (st0 : SMState)
        (le0 e : Option Nat),
        (resolveSources st0 le0 srcs).2.2 = .error e →
          ∀ s, (resolveSources st0 le0 srcs).1.failureCount s = 0
            ∧ isSourceHealthy (resolveSources st0 le0 srcs).1 s = true) := by
  have h3 : 3 ≤ st.failureCount n := h
  have hunh : isSourceHealthy st n = false := by
    simp only [isSourceHealthy, maxFailures, decide_eq_false_iff_not]
    omega
  refine ⟨resolveSources_skip st le n out rest hunh, fun _ _ => rfl, ?_⟩
  intro srcs st0 le0 e herr s
  have h0 := resolveSources_error_resets srcs st0 le0 e herr s
  refine ⟨h0, ?_⟩
  simp [isSourceHealthy, h0, maxFailures]

/-- Witness for health_skip_and_reset: a manager with em at 3 failures
skips em entirely. -/
theorem health_skip_and_reset_check :
    maxFailures ≤ (SMState.mk fun s => if s = "em" then 3 else 0).failureCount "em"
    ∧ resolveSources (SMState.mk fun s => if s = "em" then 3 else 0) none
        [("em", .raises 5)]
        = resolveSources (SMState.mk fun s => if s = "em" then 3 else 0) none [] :=
  ⟨by decide,
    (health_skip_and_reset (SMState.mk fun s => if s = "em" then 3 else 0) none
      "em" (.raises 5) [] (by decide)).1⟩

/-- C8. save_historical_data is a no-op on an empty frame (the partition
file is neither created nor modified) and swallows every persistence
error (a failing write leaves the partition unchanged and raises
nothing), and on a cache miss with a successful fetch the read-through
orchestration hands back exactly the fetched rows whether or not the
best-effort save succeeded. -/
theorem best_effort_save {ε : Type} (part : Option (List Row))
    (startD endD : Nat) (df : List Row) (writeErr : Bool)
    (hmiss : getHistoricalData part startD endD = none) :
    (∀ w : Bool, saveHistoricalData part [] w = part)
    ∧ (∀ rows : List Row, saveHistoricalData part rows true = part)
    ∧ (getStockHistoryCached part startD endD
        (Except.ok df : Except ε (List Row)) writeErr).map Prod.fst
        = Except.ok df := by
  refine ⟨fun w => by simp [saveHistoricalData], fun rows => ?_, ?_⟩
  · simp [saveHistoricalData]
  · simp [getStockHistoryCached, hmiss, fetchAndStore, Except.map]

/-- Witness for best_effort_save: an absent partition is a miss, and the
fetched single-row frame is returned as-is with the save failing. -/
theorem best_effort_save_check :
    getHistoricalData none 0 5 = none
    ∧ (getStockHistoryCached none 0 5
        (Except.ok [Row.mk 1 2] : Except (Option Nat) (List Row)) true).map
        Prod.fst = Except.ok [Row.mk 1 2] :=
  ⟨rfl,
    (best_effort_save none 0 5 [Row.mk 1 2] true rfl).2.2⟩

/-- C9. analyze_stock rejects an empty symbol, a symbol containing a
non-digit character, or a symbol whose length is not 6 with the
structured invalid-input error before any cache read, cache write or
source call: the partition is untouched and the flag recording that the
data-access pipeline was reached is false. -/
theorem invalid_symbol_rejected (symbol : String) (startD endD : Nat)
    (part : Option (List Row)) (fetch : Except (Option Nat) (List Row))
    (writeErr : Bool)
    (h : symbol = "" ∨ (∃ c ∈ symbol.toList, ¬ c.isDigit)
      ∨ symbol.length ≠ 6) :
    analyzeStock symbol startD endD part fetch writeErr
      = (.invalidInput symbol, part, false) := by
  have hv : isValidStockSymbol symbol = false := by
    rcases h with h | h | h
    · subst h; rfl
    · obtain ⟨c, hc, hcd⟩ := h
      have hall : symbol.toList.all Char.isDigit = false :=
        List.all_eq_false.mpr ⟨c, hc, by simpa using hcd⟩
      unfold isValidStockSymbol
      rw [hall]
      simp
    · have hlen : (symbol.length == 6) = false := by simpa using h
      unfold isValidStockSymbol
      rw [hlen]
      simp
  simp [analyzeStock, hv]

/-- Witness for invalid_symbol_rejected on the malformed symbol 12a456.
-/
theorem invalid_symbol_rejected_check :
    ("12a456" = "" ∨ (∃ c ∈ "12a456".toList, ¬ c.isDigit)
      ∨ "12a456".length ≠ 6)
    ∧ analyzeStock "12a456" 0 10 none (Except.error none) false
        = (.invalidInput "12a456", none, false) := by
  have hd : ∃ c ∈ "12a456".toList, ¬ c.isDigit := ⟨'a', by decide, by decide⟩
  exact ⟨Or.inr (Or.inl hd),
    invalid_symbol_rejected "12a456" 0 10 none (Except.error none) false
      (Or.inr (Or.inl hd))⟩

end AShareAnalyzer
